import Mathlib

/-!
Verification of the StewardAI client against its specification.

The repository is a browser front end; the logic verified here is its pure
core: the response sanitizer `validateAndSanitizePlan`, the response
processing of `generateInvestmentStrategy` (fence extraction, JSON parsing,
sanitization), the credential check `verifyApiKey`, the chat-history
persistence of `AgentChat`, and the credential-clear path of `app.tsx`.

JavaScript dynamic values are embedded as `JSValue` (with an explicit
`undefined`), strings as `List Char`, and the throwing property accesses of the
source (`null.x` raises a TypeError) as `Option`-valued access.  `JSON.parse`
and `JSON.stringify` are modelled by an executable parser/printer pair over
the same value type; numbers are modelled as integers (the only numeric
fragment the verified claims exercise) and floating point is out of scope.
-/

/-- JavaScript strings, embedded as lists of unicode characters. -/
abbrev JStr := List Char

/-- Turn a Lean string literal into an embedded JavaScript string. -/
def jstr (s : String) : JStr := s.toList

/-- Dynamic JavaScript values as they occur in the client: the result of
`JSON.parse`, plus `undefined`, which property access produces.  Numbers are
modelled as integers. -/
inductive JSValue where
  | undefined
  | null
  | bool (b : Bool)
  | num (n : Int)
  | str (s : JStr)
  | arr (elems : List JSValue)
  | obj (fields : List (JStr × JSValue))
deriving Repr

/-- JavaScript truthiness: `undefined`, `null`, `false`, `0` and `""` are
falsy, everything else (including `[]` and `{}`) is truthy. -/
def truthy : JSValue → Bool
  | .undefined => false
  | .null => false
  | .bool b => b
  | .num n => n != 0
  | .str s => !s.isEmpty
  | .arr _ => true
  | .obj _ => true

/-- `typeof v === 'object'`: true for `null`, arrays and objects. -/
def isObjectType : JSValue → Bool
  | .null => true
  | .arr _ => true
  | .obj _ => true
  | _ => false

/-- `Array.isArray`. -/
def isArray : JSValue → Bool
  | .arr _ => true
  | _ => false

/-- Last-binding lookup in an object's field list (ECMAScript keeps the last
of a repeated name), `undefined` when the name is absent. -/
def lookupField : List (JStr × JSValue) → JStr → JSValue
  | [], _ => .undefined
  | (k, v) :: fs, key => match lookupField fs key with
      | .undefined => if k = key then v else .undefined
      | w => w

/-- Property access on a value known not to be nullish: objects look the name
up, primitives and arrays yield `undefined` for the names the client reads. -/
def getPropNN (v : JSValue) (k : JStr) : JSValue :=
  match v with
  | .obj fields => lookupField fields k
  | _ => .undefined

/-- Property access with JavaScript's throwing behaviour: reading a property
of `null` or `undefined` raises a TypeError, modelled as `none`. -/
def getProp (v : JSValue) (k : JStr) : Option JSValue :=
  match v with
  | .undefined => none
  | .null => none
  | v => some (getPropNN v k)

/-- The JavaScript `a || b`. -/
def jsOr (a b : JSValue) : JSValue := if truthy a then a else b

/-- The JavaScript `a && b`. -/
def jsAnd (a b : JSValue) : JSValue := if truthy a then b else a

/-- The character set removed by `String.prototype.trim` (ECMAScript
WhiteSpace and LineTerminator). -/
def jsIsWs (c : Char) : Bool :=
  c.toNat = 0x9 || c.toNat = 0xA || c.toNat = 0xB || c.toNat = 0xC ||
  c.toNat = 0xD || c.toNat = 0x20 || c.toNat = 0xA0 || c.toNat = 0x1680 ||
  (0x2000 ≤ c.toNat && c.toNat ≤ 0x200A) || c.toNat = 0x2028 ||
  c.toNat = 0x2029 || c.toNat = 0x202F || c.toNat = 0x205F ||
  c.toNat = 0x3000 || c.toNat = 0xFEFF

/-- `String.prototype.trim`: strip whitespace from both ends. -/
def jsTrim (s : JStr) : JStr :=
  ((s.dropWhile jsIsWs).reverse.dropWhile jsIsWs).reverse

/-- The element list of an array value (used only under an `Array.isArray`
guard, where the other branches are unreachable). -/
def JSValue.elems : JSValue → List JSValue
  | .arr es => es
  | _ => []

/-! ## The sanitizer (`geminiService.ts`, `validateAndSanitizePlan`) -/

/-- The object built for each kept allocation entry (`geminiService.ts`
lines 60-74).  Fields hold the dynamic values the source assigns, so a
truthy payload value of the wrong type is kept as the source keeps it. -/
structure AllocationItem where
  ticker : JSValue
  name : JSValue
  sector : JSValue
  percentage : JSValue
  type : JSValue
  rationale : JSValue
  accountType : JSValue
  dividendYield : JSValue
  technicalAnalysis : JSValue
  marketSentiment : JSValue
deriving Repr

/-- A grounding citation as pushed by `generateInvestmentStrategy`
(`{ url: chunk.web.uri, title: chunk.web.title }`). -/
structure PlanSource where
  url : JSValue
  title : JSValue
deriving Repr

/-- The plan record returned by the sanitizer (`geminiService.ts` lines
77-89).  List-valued fields hold the element lists the source computes;
record-valued fields hold the dynamic value the source assigns. -/
structure InvestmentPlan where
  summary : JSValue
  riskAnalysis : JSValue
  actionableSteps : List JSValue
  swot : JSValue
  allocations : List AllocationItem
  projections : List JSValue
  sources : List PlanSource
  marketAnalysis : JSValue
  secEvents : List JSValue
  sectorTrends : List JSValue
  portfolioAnalysis : JSValue
deriving Repr

/-- The placeholder technical-analysis record of `validateAndSanitizePlan`. -/
def taPlaceholder : JSValue :=
  .obj [(jstr "summary", .str (jstr "No technical analysis provided.")),
        (jstr "support", .str (jstr "-")),
        (jstr "resistance", .str (jstr "-")),
        (jstr "indicatorSignal", .str (jstr "-"))]

/-- The placeholder market-sentiment record of `validateAndSanitizePlan`. -/
def msPlaceholder : JSValue :=
  .obj [(jstr "score", .str (jstr "Neutral")),
        (jstr "summary", .str (jstr "No sentiment analysis provided.")),
        (jstr "analystRating", .str (jstr "-"))]

/-- The default SWOT record of `validateAndSanitizePlan`. -/
def swotDefault : JSValue :=
  .obj [(jstr "strengths", .arr []), (jstr "weaknesses", .arr []),
        (jstr "opportunities", .arr []), (jstr "threats", .arr [])]

/-- The default market-analysis record of `validateAndSanitizePlan`. -/
def marketAnalysisDefault : JSValue :=
  .obj [(jstr "macroOutlook", .str []), (jstr "inflationForecast", .str []),
        (jstr "interestRateView", .str [])]

/-- The allocations filter predicate `typeof a === 'object' && a.ticker`:
`none` models the TypeError raised when `a` is `null` (`typeof null` is
`'object'`, so the guard then reads `null.ticker`). -/
def allocKeep (a : JSValue) : Option Bool :=
  if isObjectType a then (getProp a (jstr "ticker")).map truthy
  else some false

/-- The projections filter predicate `typeof p === 'object' && p.year`, with
the same throwing behaviour on a `null` element. -/
def projKeep (p : JSValue) : Option Bool :=
  if isObjectType p then (getProp p (jstr "year")).map truthy
  else some false

/-- `Array.prototype.filter` with a predicate that can throw: the first
exception aborts the whole call. -/
def filterJS (p : JSValue → Option Bool) : List JSValue → Option (List JSValue)
  | [] => some []
  | x :: xs => do
      let b ← p x
      let rest ← filterJS p xs
      pure (if b then x :: rest else rest)

/-- The map body of `validateAndSanitizePlan` for one kept allocation entry
(`geminiService.ts` lines 60-74).  Property reads are sequenced in source
order; the filter already guarantees they cannot throw here. -/
def sanitizeAllocation (a : JSValue) : Option AllocationItem := do
  let ticker ← getProp a (jstr "ticker")
  let name ← getProp a (jstr "name")
  let sector ← getProp a (jstr "sector")
  let percentage ← getProp a (jstr "percentage")
  let ty ← getProp a (jstr "type")
  let rationale ← getProp a (jstr "rationale")
  let accountType ← getProp a (jstr "accountType")
  let dividendYield ← getProp a (jstr "dividendYield")
  let ta ← getProp a (jstr "technicalAnalysis")
  let ms ← getProp a (jstr "marketSentiment")
  pure {
    ticker := jsOr ticker (.str (jstr "N/A")),
    name := jsOr name (.str (jstr "N/A")),
    sector := jsOr sector (.str (jstr "N/A")),
    percentage := jsOr percentage (.num 0),
    type := jsOr ty (.str (jstr "ETF")),
    rationale := jsOr rationale (.str (jstr "No rationale provided.")),
    accountType := jsOr accountType (.str (jstr "Brokerage")),
    dividendYield := dividendYield,
    technicalAnalysis :=
      if truthy (jsAnd (.bool (isObjectType ta)) ta) then ta else taPlaceholder,
    marketSentiment :=
      if truthy (jsAnd (.bool (isObjectType ms)) ms) then ms else msPlaceholder }

/-- `validateAndSanitizePlan (data, summary)` (`geminiService.ts` lines
57-90).  `none` models an uncaught TypeError: the function is not total on
dynamic input, because `data.allocations` throws when `data` is nullish and
the allocations/projections filters throw on a `null` element. -/
def validateAndSanitizePlan (data : JSValue) (summary : JStr) :
    Option InvestmentPlan := do
  let allocsRaw ← getProp data (jstr "allocations")
  let allocations ←
    if isArray allocsRaw then do
      let kept ← filterJS allocKeep allocsRaw.elems
      kept.mapM sanitizeAllocation
    else pure []
  let riskAnalysis ← getProp data (jstr "riskAnalysis")
  let steps ← getProp data (jstr "actionableSteps")
  let swotRaw ← getProp data (jstr "swot")
  let projRaw ← getProp data (jstr "projections")
  let projections ←
    if isArray projRaw then filterJS projKeep projRaw.elems else pure []
  let marketRaw ← getProp data (jstr "marketAnalysis")
  let secRaw ← getProp data (jstr "secEvents")
  let trendRaw ← getProp data (jstr "sectorTrends")
  let pa ← getProp data (jstr "portfolioAnalysis")
  pure {
    summary := jsOr (.str summary) (.str (jstr "No summary provided.")),
    riskAnalysis := jsOr riskAnalysis (.str []),
    actionableSteps := if isArray steps then steps.elems else [],
    swot := jsOr (jsAnd (.bool (isObjectType swotRaw)) swotRaw) swotDefault,
    allocations := allocations,
    projections := projections,
    sources := [],
    marketAnalysis :=
      jsOr (jsAnd (.bool (isObjectType marketRaw)) marketRaw) marketAnalysisDefault,
    secEvents := if isArray secRaw then secRaw.elems.filter isObjectType else [],
    sectorTrends := if isArray trendRaw then trendRaw.elems.filter isObjectType else [],
    portfolioAnalysis := if isObjectType pa then pa else .undefined }

/-! ## Credential verification (`geminiService.ts`, `verifyApiKey`) -/

/-- The outcome of the single `generateContent` probe that `verifyApiKey`
issues: either the call throws (network/auth failure) or it returns a
dynamic response value. -/
inductive ProbeOutcome where
  | threw
  | returned (result : JSValue)

/-- The result of a `verifyApiKey` run: whether the external call was
issued, and the boolean the function returns. -/
structure VerifyResult where
  networkCalled : Bool
  accepted : Bool
deriving DecidableEq, Repr

/-- The response check of `verifyApiKey`:
`result && typeof result.text === 'string' && result.text.length > 0`.
`result` is known truthy before `result.text` is read, so the access cannot
throw. -/
def verifyResponseOk (result : JSValue) : Bool :=
  truthy result &&
    match getPropNN result (jstr "text") with
    | .str s => !s.isEmpty
    | _ => false

/-- `verifyApiKey` (`geminiService.ts` lines 21-50), with the network call
abstracted by its outcome.  The guard
`!apiKey || typeof apiKey !== 'string' || apiKey.trim().length === 0`
returns `false` before any network traffic; the `typeof` disjunct is
vacuous for a string argument.  `getClient`'s own `!apiKey` throw is caught
by the surrounding `try` and cannot fire after the guard.  Every path
returns a boolean: the function never throws. -/
def verifyApiKey (apiKey : JStr) (outcome : ProbeOutcome) : VerifyResult :=
  if !truthy (.str apiKey) || (jsTrim apiKey).isEmpty then ⟨false, false⟩
  else if !truthy (.str apiKey) then ⟨false, false⟩
  else match outcome with
    | .threw => ⟨true, false⟩
    | .returned result => ⟨true, verifyResponseOk result⟩

/-! ## String search (`indexOf`, the fence regex) -/

/-- Whether `p` is a prefix of `s`. -/
def isPrefixList : JStr → JStr → Bool
  | [], _ => true
  | _ :: _, [] => false
  | p :: ps, c :: cs => p = c && isPrefixList ps cs

/-- Index of the first occurrence of `pat` in `s`, if any
(`String.prototype.indexOf` without the `-1` encoding). -/
def firstOccur (pat : JStr) : JStr → Option Nat
  | [] => if isPrefixList pat [] then some 0 else none
  | c :: rest =>
      if isPrefixList pat (c :: rest) then some 0
      else (firstOccur pat rest).map (· + 1)

/-- Index of the last occurrence of `pat` in `s`, if any (what the greedy
`[\s\S]*` of the fence regex selects for the closing delimiter). -/
def lastOccur (pat : JStr) : JStr → Option Nat
  | [] => if isPrefixList pat [] then some 0 else none
  | c :: rest =>
      match lastOccur pat rest with
      | some n => some (n + 1)
      | none => if isPrefixList pat (c :: rest) then some 0 else none

/-- Whether `pat` occurs anywhere in `s`. -/
def hasSub (pat s : JStr) : Bool := (firstOccur pat s).isSome

/-- `String.prototype.indexOf`: first index or `-1`. -/
def jsIndexOf (s pat : JStr) : Int :=
  match firstOccur pat s with
  | some n => n
  | none => -1

/-- `s.substring(0, stop)`: a negative `stop` is clamped to `0`. -/
def jsSubstringTo (s : JStr) (stop : Int) : JStr := s.take stop.toNat

/-- The match of `/```json([\s\S]*)```/` against `s`: the capture group runs
from just after the first occurrence of the opening token to the last
occurrence of `` ``` `` after it (the star is greedy); `none` when the
regex does not match. -/
def fenceMatch (s : JStr) : Option JStr :=
  match firstOccur (jstr "```json") s with
  | none => none
  | some i =>
      let tail := s.drop (i + 7)
      match lastOccur (jstr "```") tail with
      | none => none
      | some j => some (tail.take j)

/-! ## `JSON.parse`, modelled as an executable parser -/

/-- JSON insignificant whitespace (RFC 8259: space, tab, LF, CR). -/
def jsonWsCh (c : Char) : Bool :=
  c = ' ' || c = '\t' || c = '\n' || c = '\r'

/-- Skip insignificant whitespace. -/
def skipJsonWs (s : JStr) : JStr := s.dropWhile jsonWsCh

/-- The numeric value of a hexadecimal digit. -/
def hexVal (c : Char) : Option Nat :=
  if '0' ≤ c && c ≤ '9' then some (c.toNat - 48)
  else if 'a' ≤ c && c ≤ 'f' then some (c.toNat - 87)
  else if 'A' ≤ c && c ≤ 'F' then some (c.toNat - 55)
  else none

/-- Scan the body of a JSON string literal after its opening quote,
returning the decoded characters and the input after the closing quote.
A `\uXXXX` escape outside the scalar range decodes to NUL; the printer
below never emits one. -/
def parseStringAux : JStr → Option (JStr × JStr)
  | [] => none
  | c :: rest =>
    if c = '"' then some ([], rest)
    else if c = '\\' then
      match rest with
      | [] => none
      | e :: r =>
        if e = '"' then (parseStringAux r).map (fun p => ('"' :: p.1, p.2))
        else if e = '\\' then (parseStringAux r).map (fun p => ('\\' :: p.1, p.2))
        else if e = '/' then (parseStringAux r).map (fun p => ('/' :: p.1, p.2))
        else if e = 'b' then (parseStringAux r).map (fun p => ('\x08' :: p.1, p.2))
        else if e = 'f' then (parseStringAux r).map (fun p => ('\x0c' :: p.1, p.2))
        else if e = 'n' then (parseStringAux r).map (fun p => ('\n' :: p.1, p.2))
        else if e = 'r' then (parseStringAux r).map (fun p => ('\r' :: p.1, p.2))
        else if e = 't' then (parseStringAux r).map (fun p => ('\t' :: p.1, p.2))
        else if e = 'u' then
          match r with
          | h1 :: h2 :: h3 :: h4 :: r2 => do
              let a ← hexVal h1
              let b ← hexVal h2
              let c2 ← hexVal h3
              let d ← hexVal h4
              let ch := Char.ofNat (a * 4096 + b * 256 + c2 * 16 + d)
              (parseStringAux r2).map (fun p => (ch :: p.1, p.2))
          | _ => none
        else none
    else (parseStringAux rest).map (fun p => (c :: p.1, p.2))

/-- Accumulate decimal digits. -/
def parseDigitsAux : JStr → Nat → Nat × JStr
  | [], acc => (acc, [])
  | c :: r, acc =>
      if c.isDigit then parseDigitsAux r (acc * 10 + (c.toNat - 48))
      else (acc, c :: r)

/-- Parse one or more decimal digits. -/
def parseDigits : JStr → Option (Nat × JStr)
  | [] => none
  | c :: r => if c.isDigit then some (parseDigitsAux (c :: r) 0) else none

mutual
/-- Parse one JSON value (integer number fragment), returning it and the
rest of the input.  The fuel only bounds recursion depth; `jsonParse`
supplies more than any input can consume. -/
def parseValue : Nat → JStr → Option (JSValue × JStr)
  | 0, _ => none
  | fuel + 1, s =>
    match skipJsonWs s with
    | [] => none
    | c :: rest =>
      if c = '"' then (parseStringAux rest).map (fun p => (.str p.1, p.2))
      else if c = '[' then
        match skipJsonWs rest with
        | ']' :: r => some (.arr [], r)
        | r => (parseElems fuel r).map (fun p => (.arr p.1, p.2))
      else if c = '{' then
        match skipJsonWs rest with
        | '}' :: r => some (.obj [], r)
        | r => (parseFields fuel r).map (fun p => (.obj p.1, p.2))
      else if c = '-' then
        (parseDigits rest).map (fun p => (.num (-(p.1 : Int)), p.2))
      else if c.isDigit then
        (parseDigits (c :: rest)).map (fun p => (.num (p.1 : Int), p.2))
      else match c :: rest with
        | 't' :: 'r' :: 'u' :: 'e' :: r => some (.bool true, r)
        | 'f' :: 'a' :: 'l' :: 's' :: 'e' :: r => some (.bool false, r)
        | 'n' :: 'u' :: 'l' :: 'l' :: r => some (.null, r)
        | _ => none

/-- Parse the elements of a non-empty JSON array up to and including the
closing bracket. -/
def parseElems : Nat → JStr → Option (List JSValue × JStr)
  | 0, _ => none
  | fuel + 1, s => do
      let (v, r) ← parseValue fuel s
      match skipJsonWs r with
      | ',' :: r2 => do
          let (vs, r3) ← parseElems fuel r2
          pure (v :: vs, r3)
      | ']' :: r2 => pure ([v], r2)
      | _ => none

/-- Parse the members of a non-empty JSON object up to and including the
closing brace. -/
def parseFields : Nat → JStr → Option (List (JStr × JSValue) × JStr)
  | 0, _ => none
  | fuel + 1, s =>
    match skipJsonWs s with
    | '"' :: rest => do
        let (k, r) ← parseStringAux rest
        match skipJsonWs r with
        | ':' :: r2 => do
            let (v, r3) ← parseValue fuel r2
            match skipJsonWs r3 with
            | ',' :: r4 => do
                let (fs, r5) ← parseFields fuel r4
                pure ((k, v) :: fs, r5)
            | '}' :: r4 => pure ([(k, v)], r4)
            | _ => none
        | _ => none
    | _ => none
end

/-- `JSON.parse`: parse a complete value, rejecting trailing garbage;
`none` models the thrown `SyntaxError`. -/
def jsonParse (s : JStr) : Option JSValue :=
  match parseValue (s.length + 1) s with
  | some (v, rest) => if skipJsonWs rest = [] then some v else none
  | none => none

/-! ## `JSON.stringify`, modelled as an executable printer -/

/-- Lowercase hexadecimal digit. -/
def hexDigitCh (n : Nat) : Char :=
  if n < 10 then Char.ofNat (48 + n) else Char.ofNat (87 + n)

/-- How `JSON.stringify` writes one character of a string: quote and
backslash are escaped, the named control characters use their short
escapes, other control characters use `\u00XX`, everything else is
written as itself. -/
def encodeChar (c : Char) : JStr :=
  if c = '"' then ['\\', '"']
  else if c = '\\' then ['\\', '\\']
  else if c = '\x08' then ['\\', 'b']
  else if c = '\x0c' then ['\\', 'f']
  else if c = '\n' then ['\\', 'n']
  else if c = '\r' then ['\\', 'r']
  else if c = '\t' then ['\\', 't']
  else if c.toNat < 32 then
    ['\\', 'u', '0', '0', hexDigitCh (c.toNat / 16), hexDigitCh (c.toNat % 16)]
  else [c]

/-- The body of a JSON string literal for `s`. -/
def escapeStr (s : JStr) : JStr := s.flatMap encodeChar

/-- Decimal digits of a natural number. -/
def natDigits (n : Nat) : JStr :=
  if h : n < 10 then [Char.ofNat (48 + n)]
  else natDigits (n / 10) ++ [Char.ofNat (48 + n % 10)]
decreasing_by exact Nat.div_lt_self (by omega) (by omega)

/-- Decimal rendering of an integer. -/
def intDigits (n : Int) : JStr :=
  if n < 0 then '-' :: natDigits (-n).toNat else natDigits n.toNat

mutual
/-- `JSON.stringify` (compact form, no indent argument) on the fragment the
client stores: `undefined`-valued object properties do not occur in the
stored data, so the member printer writes every field. -/
def stringifyValue : JSValue → JStr
  | .undefined => jstr "null"
  | .null => jstr "null"
  | .bool true => jstr "true"
  | .bool false => jstr "false"
  | .num n => intDigits n
  | .str s => '"' :: escapeStr s ++ ['"']
  | .arr es => '[' :: stringifyElems es ++ [']']
  | .obj fs => '{' :: stringifyMembers fs ++ ['}']

/-- Comma-separated renderings of array elements. -/
def stringifyElems : List JSValue → JStr
  | [] => []
  | [v] => stringifyValue v
  | v :: vs => stringifyValue v ++ ',' :: stringifyElems vs

/-- Comma-separated renderings of object members. -/
def stringifyMembers : List (JStr × JSValue) → JStr
  | [] => []
  | [(k, v)] => '"' :: escapeStr k ++ '"' :: ':' :: stringifyValue v
  | (k, v) :: fs =>
      ('"' :: escapeStr k ++ '"' :: ':' :: stringifyValue v) ++
        ',' :: stringifyMembers fs
end

mutual
/-- The value fragment for which the parse-of-print round trip is proved:
no `undefined` (stringify would drop or rewrite it) and no numbers (the
stored chat history contains none, and their rendering is irrelevant to
the claims). -/
def plain : JSValue → Bool
  | .undefined => false
  | .null => true
  | .bool _ => true
  | .num _ => false
  | .str _ => true
  | .arr es => plainList es
  | .obj fs => plainFields fs

/-- `plain` on every array element. -/
def plainList : List JSValue → Bool
  | [] => true
  | v :: vs => plain v && plainList vs

/-- `plain` on every member value. -/
def plainFields : List (JStr × JSValue) → Bool
  | [] => true
  | (_, v) :: fs => plain v && plainFields fs
end

mutual
/-- Fuel sufficient for `parseValue` to read back the rendering of `v`. -/
def needV : JSValue → Nat
  | .arr es => 1 + needE es
  | .obj fs => 1 + needF fs
  | _ => 1

/-- Fuel sufficient for `parseElems` on a rendered element list. -/
def needE : List JSValue → Nat
  | [] => 1
  | v :: vs => 1 + max (needV v) (needE vs)

/-- Fuel sufficient for `parseFields` on a rendered member list. -/
def needF : List (JStr × JSValue) → Nat
  | [] => 1
  | (_, v) :: fs => 1 + max (needV v) (needF fs)
end

/-! ## Chat history (`types.ts` `ChatMessage`, `AgentChat.tsx` effects) -/

/-- A chat role (`'user' | 'model'`). -/
inductive ChatRole where
  | user
  | model
deriving DecidableEq, Repr

/-- A grounding citation of the chat (`types.ts` `GroundingSource`). -/
structure GroundingSource where
  title : JStr
  url : JStr
deriving DecidableEq, Repr

/-- A chat message (`types.ts` `ChatMessage`): role, text, and an optional
source list — `none` models a message object built without a `sources`
property. -/
structure ChatMessage where
  role : ChatRole
  text : JStr
  sources : Option (List GroundingSource) := none
deriving DecidableEq, Repr

/-- The string value of a role. -/
def roleStr : ChatRole → JStr
  | .user => jstr "user"
  | .model => jstr "model"

/-- The object `AgentChat` pushes for one citation:
`{ title: chunk.web.title, url: chunk.web.uri }`. -/
def encodeSource (s : GroundingSource) : JSValue :=
  .obj [(jstr "title", .str s.title), (jstr "url", .str s.url)]

/-- The object `AgentChat` appends for one message: `{ role, text }`, plus a
`sources` property exactly when the message carries one. -/
def encodeMessage (m : ChatMessage) : JSValue :=
  .obj ([(jstr "role", .str (roleStr m.role)), (jstr "text", .str m.text)] ++
    match m.sources with
    | none => []
    | some l => [(jstr "sources", .arr (l.map encodeSource))])

/-- The canned greeting `AgentChat` falls back to when nothing (or nothing
readable) is stored. -/
def defaultGreeting : ChatMessage :=
  { role := .model,
    text := jstr "I have reviewed your legacy plan. The principles are sound and the strategy is aligned with your long-term goals. How may I provide clarity or guidance?" }

/-- The browser's local storage as the client uses it: the credential key
and the chat-history key, each absent or a string. -/
structure BrowserStore where
  apiKeyStore : Option JStr := none
  chatHistoryStore : Option JStr := none

/-- The load effect of `AgentChat` (lines 41-54): parse the stored history,
falling back to the greeting when nothing is stored or parsing throws.  The
in-memory message list holds the dynamic values `setMessages` receives. -/
def loadMessages (store : BrowserStore) : List JSValue :=
  match store.chatHistoryStore with
  | none => [encodeMessage defaultGreeting]
  | some s =>
      match jsonParse s with
      | some (.arr ms) => ms
      | some _ => [encodeMessage defaultGreeting]
      | none => [encodeMessage defaultGreeting]

/-- The save effect of `AgentChat` (lines 57-61): a non-empty message list
is stringified into the chat-history key; an empty one writes nothing. -/
def saveMessages (messages : List JSValue) (store : BrowserStore) : BrowserStore :=
  if messages.length > 0 then
    { store with chatHistoryStore := some (stringifyValue (.arr messages)) }
  else store

/-- One append as `setMessages(prev => [...prev, m])` followed by the save
effect. -/
def appendAndSave (m : JSValue) : List JSValue × BrowserStore → List JSValue × BrowserStore
  | (msgs, store) =>
      let msgs2 := msgs ++ [m]
      (msgs2, saveMessages msgs2 store)

/-- Append a sequence of messages one by one, saving after each. -/
def appendAll (ms : List JSValue) (st : List JSValue × BrowserStore) :
    List JSValue × BrowserStore :=
  ms.foldl (fun acc m => appendAndSave m acc) st

/-! ## Response processing (`generateInvestmentStrategy`, lines 182-225) -/

/-- How a generation attempt ends when it does not produce a plan. -/
inductive GenError where
  | emptyResponse
  | noJsonBlock
  | malformedJson
  | thrown
deriving DecidableEq, Repr

/-- The `(uri, title)` pair read off one grounding chunk through
`chunk.web?.uri` / `chunk.web?.title`; `none` models the TypeError of a
nullish chunk. -/
def chunkFields (chunk : JSValue) : Option (JSValue × JSValue) :=
  (getProp chunk (jstr "web")).map fun web =>
    match web with
    | .null => (.undefined, .undefined)
    | .undefined => (.undefined, .undefined)
    | w => (getPropNN w (jstr "uri"), getPropNN w (jstr "title"))

/-- The `forEach` that collects `{ url, title }` for every chunk whose web
record carries both a truthy uri and a truthy title. -/
def extractSources : List JSValue → Option (List PlanSource)
  | [] => some []
  | c :: cs => do
      let (uri, title) ← chunkFields c
      let rest ← extractSources cs
      pure (if truthy uri && truthy title then ⟨uri, title⟩ :: rest else rest)

/-- `if (groundingChunks) { groundingChunks.forEach(...) }`: skipped when
the optional chain produced nothing; a truthy non-array would make
`forEach` throw. -/
def collectSources (gc : JSValue) : Option (List PlanSource) :=
  if truthy gc then
    match gc with
    | .arr cs => extractSources cs
    | _ => none
  else some []

/-- The processing `generateInvestmentStrategy` applies to the model's
response text and grounding chunks (`geminiService.ts` lines 182-225):
empty-text check, summary extraction via `indexOf`/`substring`, the fence
regex, `JSON.parse`, source collection, sanitization, and the final
`sources` assignment.  `Except.error` carries which failure fired;
`.thrown` stands for an exception escaping from source collection or the
sanitizer. -/
def processResponse (responseText : JStr) (gc : JSValue) :
    Except GenError InvestmentPlan :=
  if !truthy (.str responseText) then .error .emptyResponse
  else
    let summary := jsTrim (jsSubstringTo responseText
      (jsIndexOf responseText (jstr "```json")))
    match fenceMatch responseText with
    | none => .error .noJsonBlock
    | some cap =>
      if cap.isEmpty then .error .noJsonBlock
      else
        match jsonParse (jsTrim cap) with
        | none => .error .malformedJson
        | some parsedJson =>
          match collectSources gc with
          | none => .error .thrown
          | some sources =>
            match validateAndSanitizePlan parsedJson summary with
            | none => .error .thrown
            | some plan => .ok { plan with sources := sources }

/-! ## Application state (`app.tsx`, the credential-clear path) -/

/-- The application state the claims read: the two local-storage keys, the
`App` component state, and the `AgentChat` component state (its in-memory
message list, empty while unmounted). -/
structure AppState where
  store : BrowserStore
  apiKey : Option JStr := none
  plan : Option InvestmentPlan := none
  error : Option JStr := none
  loading : Bool := false
  chatMounted : Bool := false
  messages : List JSValue := []

/-- `resetApp` (`app.tsx` lines 62-66). -/
def resetApp (s : AppState) : AppState :=
  { s with plan := none, error := none, loading := false }

/-- `handleApiKeySave` (`app.tsx` lines 22-25). -/
def handleApiKeySave (k : JStr) (s : AppState) : AppState :=
  { s with store := { s.store with apiKeyStore := some k }, apiKey := some k }

/-- `handleApiKeyClear` (`app.tsx` lines 27-31): remove the credential key,
null the credential, and `resetApp`.  The chat-history key is not touched. -/
def handleApiKeyClear (s : AppState) : AppState :=
  resetApp { s with store := { s.store with apiKeyStore := none }, apiKey := none }

/-- Unmounting `AgentChat` (the render switches to the credential modal):
its in-memory state is discarded; local storage is untouched. -/
def unmountChat (s : AppState) : AppState :=
  { s with chatMounted := false, messages := [] }

/-- Mounting `AgentChat`: the load effect fills the message list, then the
save effect persists it (the list is never empty after loading). -/
def mountChat (s : AppState) : AppState :=
  let msgs := loadMessages s.store
  { s with chatMounted := true, messages := msgs,
           store := saveMessages msgs s.store }

/-- Appending one message in a mounted chat, with its save effect. -/
def appendChat (m : JSValue) (s : AppState) : AppState :=
  let msgs := s.messages ++ [m]
  { s with messages := msgs, store := saveMessages msgs s.store }

/-- The state transitions the claims quantify over, each defined by the
source handlers above. -/
inductive AppStep : AppState → AppState → Prop where
  | saveKey (k : JStr) (s : AppState) : AppStep s (handleApiKeySave k s)
  | planReady (p : InvestmentPlan) (s : AppState) (h : s.apiKey ≠ none) :
      AppStep s { s with plan := some p, loading := false, error := none }
  | mount (s : AppState) (h1 : s.apiKey ≠ none) (h2 : s.plan ≠ none)
      (h3 : s.chatMounted = false) : AppStep s (mountChat s)
  | sendUser (t : JStr) (s : AppState) (h : s.chatMounted = true) :
      AppStep s (appendChat (encodeMessage { role := .user, text := t }) s)
  | modelReply (t : JStr) (srcs : List GroundingSource) (s : AppState)
      (h : s.chatMounted = true) :
      AppStep s (appendChat
        (encodeMessage { role := .model, text := t, sources := some srcs }) s)
  | startOver (s : AppState) : AppStep s (resetApp s)
  | clearKey (s : AppState) : AppStep s (unmountChat (handleApiKeyClear s))

/-- The first-run state: nothing stored, nothing set. -/
def initState : AppState := { store := {} }

/-- States reachable from first run. -/
inductive Reach : AppState → Prop where
  | init : Reach initState
  | step {s t : AppState} : Reach s → AppStep s t → Reach t

/-! ## Helper lemmas -/

/-- A successful property read means the receiver is not nullish, so every
other read on it succeeds too. -/
theorem getProp_all {data : JSValue} {k : JStr} {v : JSValue}
    (h : getProp data k = some v) (k' : JStr) :
    getProp data k' = some (getPropNN data k') := by
  cases data <;> simp [getProp] at h ⊢

/-- A successful property read returns the non-null access. -/
theorem getPropNN_of_getProp {data : JSValue} {k : JStr} {v : JSValue}
    (h : getProp data k = some v) : getPropNN data k = v := by
  cases data <;> simp_all [getProp]

/-- Everything a throwing filter keeps satisfied its predicate. -/
theorem filterJS_mem {p : JSValue → Option Bool} :
    ∀ {xs ys : List JSValue} {a : JSValue},
      filterJS p xs = some ys → a ∈ ys → p a = some true
  | [], ys, a, h, ha => by
      simp [filterJS] at h; subst h; cases ha
  | x :: xs, ys, a, h, ha => by
      simp only [filterJS, Option.bind_eq_bind] at h
      rcases hx : p x with _ | b <;> rw [hx] at h
      · simp at h
      · rcases hrest : filterJS p xs with _ | rest <;> rw [hrest] at h
        · simp at h
        · simp only [Option.some_bind, pure, Option.some.injEq] at h
          subst h
          cases b with
          | true =>
              rcases List.mem_cons.mp (by simpa using ha) with rfl | hm
              · exact hx
              · exact filterJS_mem hrest hm
          | false => exact filterJS_mem hrest (by simpa using ha)

/-- The plan the sanitizer produces for a payload with no usable field and
a falsy summary: every field at its declared default. -/
def defaultPlan : InvestmentPlan :=
  { summary := .str (jstr "No summary provided."),
    riskAnalysis := .str [],
    actionableSteps := [],
    swot := swotDefault,
    allocations := [],
    projections := [],
    sources := [],
    marketAnalysis := marketAnalysisDefault,
    secEvents := [],
    sectorTrends := [],
    portfolioAnalysis := .undefined }

/-! ## Claims -/

/-- C1: the claim says `validateAndSanitizePlan` returns, without failing, a
fully well-typed Plan for every parsed payload.  The code contradicts its
own doc comment ("prevent UI crashes", "correct type"): on the payload
`{"allocations":[null]}` the filter guard `typeof a === 'object' &&
a.ticker` reads `null.ticker` (`typeof null` is `'object'`) and throws a
TypeError, so no Plan is produced at all.  This theorem evaluates the
sanitizer at that failing input. -/
theorem c1_sanitizer_throws_on_null_allocation :
    validateAndSanitizePlan
      (JSValue.obj [(jstr "allocations", JSValue.arr [JSValue.null])]) [] =
      none := rfl

/-- C3: `verifyApiKey` rejects a whitespace-only (hence also an empty)
credential with no network call; for any other input it accepts only when
the probe returned a value with a non-empty string `text` property; a
thrown probe yields `false` rather than an escaping exception. -/
theorem c3_verify_api_key (key : JStr) (outcome : ProbeOutcome) :
    ((jsTrim key).isEmpty = true → verifyApiKey key outcome = ⟨false, false⟩) ∧
    (∀ result, outcome = .returned result →
      (verifyApiKey key outcome).accepted = true →
      truthy result = true ∧
        ∃ s, getPropNN result (jstr "text") = .str s ∧ s ≠ []) ∧
    (outcome = .threw → (verifyApiKey key outcome).accepted = false) := by
  refine ⟨fun h => ?_, fun result hr hacc => ?_, fun ht => ?_⟩
  · simp [verifyApiKey, h]
  · subst hr
    by_cases hg : (!truthy (.str key) || (jsTrim key).isEmpty) = true
    · simp [verifyApiKey, hg] at hacc
    · have hg2 : ¬((!truthy (JSValue.str key)) = true) := fun hcontra => hg (by
        rw [Bool.or_eq_true]; exact Or.inl hcontra)
      simp only [verifyApiKey] at hacc
      rw [if_neg hg, if_neg hg2] at hacc
      simp only [verifyResponseOk, Bool.and_eq_true] at hacc
      refine ⟨hacc.1, ?_⟩
      rcases hx : getPropNN result (jstr "text") with _ | _ | _ | _ | s <;>
        rw [hx] at hacc <;> simp_all
  · subst ht
    simp only [verifyApiKey]
    split
    · rfl
    · split <;> rfl

/-- C3 witness: a whitespace-only key is rejected without a network call; a
thrown probe is rejected; a probe response with text "ok" is accepted and
indeed carries a non-empty text string. -/
theorem c3_verify_api_key_witness :
    verifyApiKey (jstr "  ") (.returned (JSValue.obj [])) = ⟨false, false⟩ ∧
    (verifyApiKey (jstr "k") .threw).accepted = false ∧
    (truthy (JSValue.obj [(jstr "text", JSValue.str (jstr "ok"))]) = true ∧
      ∃ s, getPropNN (JSValue.obj [(jstr "text", JSValue.str (jstr "ok"))])
        (jstr "text") = .str s ∧ s ≠ []) :=
  ⟨(c3_verify_api_key (jstr "  ") (.returned (JSValue.obj []))).1 (by rfl),
   (c3_verify_api_key (jstr "k") .threw).2.2 rfl,
   (c3_verify_api_key (jstr "k")
      (.returned (JSValue.obj [(jstr "text", JSValue.str (jstr "ok"))]))).2.1
      _ rfl (by rfl)⟩

/-- C5 (as stated) is false: when the payload's `portfolioAnalysis` is the
prompt-mandated `null`, the sanitized plan's `portfolioAnalysis` is `null`,
not absent/undefined, because `typeof null === 'object'` makes the ternary
pass it through.  Evaluated on a full generation response. -/
theorem c5_counterexample :
    (processResponse
        (jstr "My plan.```json\n\x7b\"portfolioAnalysis\":null\x7d\n```")
        JSValue.undefined).map InvestmentPlan.portfolioAnalysis =
      Except.ok JSValue.null ∧ JSValue.null ≠ JSValue.undefined :=
  ⟨rfl, fun h => nomatch h⟩

/-- C5 (amended): the sanitizer never synthesizes a portfolio analysis, but
the prompt-contract `null` is passed through as `null` (typeof null is
'object') rather than becoming absent/undefined. -/
theorem c5_portfolio_null_passthrough {data : JSValue} {summary : JStr}
    {plan : InvestmentPlan}
    (hpa : getProp data (jstr "portfolioAnalysis") = some .null)
    (h : validateAndSanitizePlan data summary = some plan) :
    plan.portfolioAnalysis = .null := by
  simp only [validateAndSanitizePlan, Option.bind_eq_bind, getProp_all hpa,
    Option.some_bind, pure] at h
  have hv := getPropNN_of_getProp hpa
  split at h
  · rcases hfa : filterJS allocKeep (getPropNN data (jstr "allocations")).elems
        with _ | kept <;> rw [hfa] at h
    · simp at h
    · simp only [Option.some_bind] at h
      rcases hm : kept.mapM sanitizeAllocation with _ | items <;> rw [hm] at h
      · simp at h
      · simp only [Option.some_bind] at h
        split at h
        · rcases hfp : filterJS projKeep (getPropNN data (jstr "projections")).elems
              with _ | projs <;> rw [hfp] at h
          · simp at h
          · simp only [Option.some_bind, Option.some.injEq] at h
            subst h; simp [hv, isObjectType]
        · simp only [Option.some.injEq] at h
          subst h; simp [hv, isObjectType]
  · split at h
    · rcases hfp : filterJS projKeep (getPropNN data (jstr "projections")).elems
          with _ | projs <;> rw [hfp] at h
      · simp at h
      · simp only [Option.some_bind, Option.some.injEq] at h
        subst h; simp [hv, isObjectType]
    · simp only [Option.some.injEq] at h
      subst h; simp [hv, isObjectType]

/-- C5 witness: `{"portfolioAnalysis":null}` sanitizes to a plan whose
`portfolioAnalysis` is `null`. -/
theorem c5_portfolio_null_passthrough_witness :
    validateAndSanitizePlan
        (JSValue.obj [(jstr "portfolioAnalysis", JSValue.null)]) [] =
      some { defaultPlan with portfolioAnalysis := JSValue.null } ∧
    ({ defaultPlan with portfolioAnalysis := JSValue.null } :
      InvestmentPlan).portfolioAnalysis = JSValue.null :=
  ⟨rfl, c5_portfolio_null_passthrough
    (show getProp (JSValue.obj [(jstr "portfolioAnalysis", JSValue.null)])
      (jstr "portfolioAnalysis") = some JSValue.null from rfl)
    (show validateAndSanitizePlan (JSValue.obj
        [(jstr "portfolioAnalysis", JSValue.null)]) [] =
      some { defaultPlan with portfolioAnalysis := JSValue.null } from rfl)⟩

/-- C7: a payload whose `allocations` field is not an array (missing, null,
object, string or number) sanitizes — whenever the sanitizer returns at
all — to a plan with an empty allocation list. -/
theorem c7_nonarray_allocations_empty {data : JSValue} {summary : JStr}
    {v : JSValue} {plan : InvestmentPlan}
    (h1 : getProp data (jstr "allocations") = some v) (h2 : isArray v = false)
    (h3 : validateAndSanitizePlan data summary = some plan) :
    plan.allocations = [] := by
  simp only [validateAndSanitizePlan, h1, Option.bind_eq_bind, Option.some_bind, h2,
    Bool.false_eq_true, if_false, getProp_all h1, pure] at h3
  split at h3
  · rcases hfp : filterJS projKeep (getPropNN data (jstr "projections")).elems
        with _ | projs
    · rw [hfp] at h3; simp at h3
    · rw [hfp] at h3
      simp only [Option.some_bind, Option.some.injEq] at h3
      subst h3; rfl
  · simp only [Option.some.injEq] at h3
    subst h3; rfl

/-- C7 witness: `{"allocations":null}` sanitizes to an empty allocation
list. -/
theorem c7_nonarray_allocations_empty_witness :
    validateAndSanitizePlan
        (JSValue.obj [(jstr "allocations", JSValue.null)]) [] =
      some defaultPlan ∧ defaultPlan.allocations = [] :=
  ⟨rfl, c7_nonarray_allocations_empty
    (show getProp (JSValue.obj [(jstr "allocations", JSValue.null)])
      (jstr "allocations") = some JSValue.null from rfl)
    (show isArray JSValue.null = false from rfl)
    (show validateAndSanitizePlan (JSValue.obj
        [(jstr "allocations", JSValue.null)]) [] =
      some defaultPlan from rfl)⟩

/-- C8: a kept allocation entry whose `technicalAnalysis` is absent (or any
value failing the object-and-truthy guard) is sanitized with the fixed
placeholder record (summary "No technical analysis provided.", support "-",
resistance "-", indicatorSignal "-"). -/
theorem c8_missing_technical_analysis_placeholder {a vta : JSValue}
    {out : AllocationItem}
    (h1 : getProp a (jstr "technicalAnalysis") = some vta)
    (h2 : isObjectType vta = false ∨ truthy vta = false)
    (h3 : sanitizeAllocation a = some out) :
    out.technicalAnalysis =
      JSValue.obj [(jstr "summary", .str (jstr "No technical analysis provided.")),
        (jstr "support", .str (jstr "-")),
        (jstr "resistance", .str (jstr "-")),
        (jstr "indicatorSignal", .str (jstr "-"))] := by
  show out.technicalAnalysis = taPlaceholder
  simp only [sanitizeAllocation, Option.bind_eq_bind, getProp_all h1,
    Option.some_bind, pure, Option.some.injEq] at h3
  subst h3
  have hv : getPropNN a (jstr "technicalAnalysis") = vta := getPropNN_of_getProp h1
  show (if truthy (jsAnd (.bool (isObjectType (getPropNN a (jstr "technicalAnalysis"))))
      (getPropNN a (jstr "technicalAnalysis"))) = true
    then getPropNN a (jstr "technicalAnalysis") else taPlaceholder) = taPlaceholder
  rw [hv]
  rcases h2 with h2 | h2
  · rw [show jsAnd (JSValue.bool (isObjectType vta)) vta = JSValue.bool false by
      simp [jsAnd, truthy, h2]]
    rfl
  · by_cases hobj : isObjectType vta = true
    · rw [show jsAnd (JSValue.bool (isObjectType vta)) vta = vta by
        simp [jsAnd, truthy, hobj]]
      rw [if_neg (by simp [h2])]
    · rw [show jsAnd (JSValue.bool (isObjectType vta)) vta = JSValue.bool false by
        simp [jsAnd, truthy]
        simp_all]
      rfl

/-- C8 witness: an entry `{"ticker":"VTI"}` with no technicalAnalysis field
is sanitized with the placeholder record. -/
theorem c8_missing_technical_analysis_placeholder_witness :
    sanitizeAllocation (JSValue.obj [(jstr "ticker", JSValue.str (jstr "VTI"))]) =
      some { ticker := .str (jstr "VTI"), name := .str (jstr "N/A"),
             sector := .str (jstr "N/A"), percentage := .num 0,
             type := .str (jstr "ETF"),
             rationale := .str (jstr "No rationale provided."),
             accountType := .str (jstr "Brokerage"), dividendYield := .undefined,
             technicalAnalysis := taPlaceholder,
             marketSentiment := msPlaceholder } ∧
    taPlaceholder =
      JSValue.obj [(jstr "summary", .str (jstr "No technical analysis provided.")),
        (jstr "support", .str (jstr "-")),
        (jstr "resistance", .str (jstr "-")),
        (jstr "indicatorSignal", .str (jstr "-"))] :=
  ⟨rfl, c8_missing_technical_analysis_placeholder
    (show getProp (JSValue.obj [(jstr "ticker", JSValue.str (jstr "VTI"))])
      (jstr "technicalAnalysis") = some JSValue.undefined from rfl)
    (Or.inl (show isObjectType JSValue.undefined = false from rfl))
    (show sanitizeAllocation (JSValue.obj
        [(jstr "ticker", JSValue.str (jstr "VTI"))]) =
      some { ticker := .str (jstr "VTI"), name := .str (jstr "N/A"),
             sector := .str (jstr "N/A"), percentage := .num 0,
             type := .str (jstr "ETF"),
             rationale := .str (jstr "No rationale provided."),
             accountType := .str (jstr "Brokerage"),
             dividendYield := .undefined,
             technicalAnalysis := taPlaceholder,
             marketSentiment := msPlaceholder } from rfl)⟩

/-- C10: the entry-level guards drop rather than default: an allocations
element that fails `typeof a === 'object'` or whose ticker reads falsy is
absent from the kept list, and likewise a projections element failing its
guard or with a falsy year. -/
theorem c10_entry_guards_drop :
    (∀ (xs ys : List JSValue) (a : JSValue),
      filterJS allocKeep xs = some ys → a ∈ xs →
      (isObjectType a = false ∨
        ∃ t, getProp a (jstr "ticker") = some t ∧ truthy t = false) →
      a ∉ ys) ∧
    (∀ (xs ys : List JSValue) (q : JSValue),
      filterJS projKeep xs = some ys → q ∈ xs →
      (isObjectType q = false ∨
        ∃ t, getProp q (jstr "year") = some t ∧ truthy t = false) →
      q ∉ ys) := by
  constructor <;>
  · intro xs ys a hf _ hbad hin
    have hkeep := filterJS_mem hf hin
    rcases hbad with hobj | ⟨t, hget, htr⟩
    · simp [allocKeep, projKeep, hobj] at hkeep
    · by_cases hobj2 : isObjectType a = true <;>
        simp [allocKeep, projKeep, hobj2, hget, htr] at hkeep

/-- C10 witness: a numeric allocations element is dropped while an object
entry is kept, and a projections object with year 0 is dropped. -/
theorem c10_entry_guards_drop_witness :
    JSValue.num 5 ∉ [JSValue.obj [(jstr "ticker", JSValue.str (jstr "VTI"))]] ∧
    JSValue.obj [(jstr "year", JSValue.num 0)] ∉ ([] : List JSValue) :=
  ⟨c10_entry_guards_drop.1
      [JSValue.num 5, JSValue.obj [(jstr "ticker", JSValue.str (jstr "VTI"))]]
      [JSValue.obj [(jstr "ticker", JSValue.str (jstr "VTI"))]]
      (JSValue.num 5) rfl (List.mem_cons_self _ _) (Or.inl rfl),
   c10_entry_guards_drop.2
      [JSValue.obj [(jstr "year", JSValue.num 0)]] []
      (JSValue.obj [(jstr "year", JSValue.num 0)])
      rfl (List.mem_cons_self _ _) (Or.inr ⟨JSValue.num 0, rfl, rfl⟩)⟩

/-- The state after saving a verified key on first run. -/
def c4s1 : AppState := handleApiKeySave (jstr "k") initState

/-- ... then a successful generation. -/
def c4s2 : AppState := { c4s1 with plan := some defaultPlan, loading := false, error := none }

/-- ... then the advisory chat mounting (which persists the greeting). -/
def c4s3 : AppState := mountChat c4s2

/-- ... then the user clicking "Reset API Key". -/
def c4State : AppState := unmountChat (handleApiKeyClear c4s3)

/-- C4 (as stated) is false: from a reachable state, the credential-clear
operation clears the stored credential and discards the Plan, but the
chat-history key survives in local storage — nothing in the code ever
removes `steward_ai_chat_history`. -/
theorem c4_counterexample :
    Reach c4State ∧ c4State.apiKey = none ∧ c4State.store.apiKeyStore = none ∧
    c4State.plan = none ∧ c4State.store.chatHistoryStore ≠ none := by
  refine ⟨?_, rfl, rfl, rfl, by simp [c4State, c4s3, c4s2, c4s1, unmountChat,
    handleApiKeyClear, resetApp, mountChat, saveMessages, loadMessages,
    handleApiKeySave, initState]⟩
  exact Reach.step (Reach.step (Reach.step (Reach.step Reach.init
    (AppStep.saveKey (jstr "k") initState))
    (AppStep.planReady defaultPlan c4s1 (by simp [c4s1, handleApiKeySave])))
    (AppStep.mount c4s2 (by simp [c4s2, c4s1, handleApiKeySave])
      (by simp [c4s2]) rfl))
    (AppStep.clearKey c4s3)

/-- C4 (amended): from every application state, the credential-clear
operation removes the stored credential, nulls the in-memory credential,
and discards the current Plan, error and loading flag; the in-memory chat
component unmounts, but the persisted chat history is left untouched (and
is rehydrated on the next mount). -/
theorem c4_clear_keeps_chat_history (s : AppState) :
    (handleApiKeyClear s).store.apiKeyStore = none ∧
    (handleApiKeyClear s).apiKey = none ∧
    (handleApiKeyClear s).plan = none ∧
    (handleApiKeyClear s).error = none ∧
    (handleApiKeyClear s).loading = false ∧
    (handleApiKeyClear s).store.chatHistoryStore = s.store.chatHistoryStore ∧
    (unmountChat (handleApiKeyClear s)).store.chatHistoryStore =
      s.store.chatHistoryStore := by
  simp [handleApiKeyClear, resetApp, unmountChat]

/-- C2: a non-empty response with no fence match, or an empty capture
group, fails with the missing-block error; a capture that does not parse as
JSON fails with the malformed-data error; an empty response fails with the
(distinct) empty-response error.  In every case the result is an error:
there is no partial success path. -/
theorem c2_malformed_response_hard_failure (text : JStr) (gc : JSValue) :
    (text = [] → processResponse text gc = .error .emptyResponse) ∧
    (text ≠ [] → fenceMatch text = none →
      processResponse text gc = .error .noJsonBlock) ∧
    (∀ cap, text ≠ [] → fenceMatch text = some cap → cap = [] →
      processResponse text gc = .error .noJsonBlock) ∧
    (∀ cap, text ≠ [] → fenceMatch text = some cap → cap ≠ [] →
      jsonParse (jsTrim cap) = none →
      processResponse text gc = .error .malformedJson) := by
  refine ⟨fun he => ?_, fun hne hf => ?_, fun cap hne hf hcap => ?_,
    fun cap hne hf hcap hp => ?_⟩
  · subst he; rfl
  · simp [processResponse, truthy, hne, hf]
  · subst hcap; simp [processResponse, truthy, hne, hf]
  · simp [processResponse, truthy, hne, hf, hcap, hp]

/-- C2 witness: the four failure shapes on concrete responses. -/
theorem c2_malformed_response_hard_failure_witness :
    processResponse [] JSValue.undefined = .error .emptyResponse ∧
    processResponse (jstr "no fence") JSValue.undefined = .error .noJsonBlock ∧
    processResponse (jstr "x```json```") JSValue.undefined = .error .noJsonBlock ∧
    processResponse (jstr "x```json bad ```") JSValue.undefined =
      .error .malformedJson :=
  ⟨(c2_malformed_response_hard_failure [] JSValue.undefined).1 rfl,
   (c2_malformed_response_hard_failure (jstr "no fence") JSValue.undefined).2.1
     (by decide) rfl,
   (c2_malformed_response_hard_failure (jstr "x```json```") JSValue.undefined).2.2.1
     [] (by decide) rfl rfl,
   (c2_malformed_response_hard_failure (jstr "x```json bad ```") JSValue.undefined).2.2.2
     (jstr " bad ") (by decide) rfl (by decide) rfl⟩

/-! ## The persistence round trip: parse of print -/

theorem skipJsonWs_cons {c : Char} (h : jsonWsCh c = false) (l : JStr) :
    skipJsonWs (c :: l) = c :: l := by
  simp [skipJsonWs, List.dropWhile_cons, h]

theorem escapeStr_cons (c : Char) (s : JStr) :
    escapeStr (c :: s) = encodeChar c ++ escapeStr s := by
  simp [escapeStr]

theorem hexVal_hexDigitCh {m : Nat} (h : m < 16) : hexVal (hexDigitCh m) = some m := by
  interval_cases m <;> decide

theorem psa_done (r : JStr) : parseStringAux ('"' :: r) = some ([], r) := by
  rw [parseStringAux.eq_def]; simp

theorem psa_other {c : Char} (h1 : c ≠ '"') (h2 : c ≠ '\\') (r : JStr) :
    parseStringAux (c :: r) = (parseStringAux r).map (fun p => (c :: p.1, p.2)) := by
  rw [parseStringAux.eq_def]; simp [h1, h2]

theorem psa_escU {h1 h2 h3 h4 : Char} {a b c2 d : Nat} (r : JStr)
    (ha : hexVal h1 = some a) (hb : hexVal h2 = some b)
    (hc : hexVal h3 = some c2) (hd : hexVal h4 = some d) :
    parseStringAux ('\\' :: 'u' :: h1 :: h2 :: h3 :: h4 :: r) =
      (parseStringAux r).map
        (fun p => (Char.ofNat (a * 4096 + b * 256 + c2 * 16 + d) :: p.1, p.2)) := by
  rw [parseStringAux.eq_def]; simp [ha, hb, hc, hd]

theorem parseStringAux_escape (s rest : JStr) :
    parseStringAux (escapeStr s ++ '"' :: rest) = some (s, rest) := by
  induction s with
  | nil => simpa [escapeStr] using psa_done rest
  | cons c s ih =>
      rw [escapeStr_cons, List.append_assoc]
      by_cases h1 : c = '"'
      · subst h1
        rw [show encodeChar '"' = ['\\', '"'] from rfl]
        rw [parseStringAux.eq_def]
        simp [ih]
      by_cases h2 : c = '\\'
      · subst h2
        rw [show encodeChar '\\' = ['\\', '\\'] from rfl]
        rw [parseStringAux.eq_def]
        simp [ih]
      by_cases h3 : c = '\x08'
      · subst h3
        rw [show encodeChar '\x08' = ['\\', 'b'] from rfl]
        rw [parseStringAux.eq_def]
        simp [ih]
      by_cases h4 : c = '\x0c'
      · subst h4
        rw [show encodeChar '\x0c' = ['\\', 'f'] from rfl]
        rw [parseStringAux.eq_def]
        simp [ih]
      by_cases h5 : c = '\n'
      · subst h5
        rw [show encodeChar '\n' = ['\\', 'n'] from rfl]
        rw [parseStringAux.eq_def]
        simp [ih]
      by_cases h6 : c = '\r'
      · subst h6
        rw [show encodeChar '\r' = ['\\', 'r'] from rfl]
        rw [parseStringAux.eq_def]
        simp [ih]
      by_cases h7 : c = '\t'
      · subst h7
        rw [show encodeChar '\t' = ['\\', 't'] from rfl]
        rw [parseStringAux.eq_def]
        simp [ih]
      by_cases h8 : c.toNat < 32
      · rw [show encodeChar c = ['\\', 'u', '0', '0', hexDigitCh (c.toNat / 16),
            hexDigitCh (c.toNat % 16)] by
          simp [encodeChar, h1, h2, h3, h4, h5, h6, h7, h8]]
        rw [List.cons_append, List.cons_append, List.cons_append, List.cons_append,
          List.cons_append, List.cons_append, List.nil_append]
        rw [psa_escU _ (show hexVal '0' = some 0 from rfl)
          (show hexVal '0' = some 0 from rfl)
          (hexVal_hexDigitCh (by omega)) (hexVal_hexDigitCh (by omega))]
        rw [ih]
        simp only [Option.map_some']
        rw [show 0 * 4096 + 0 * 256 + c.toNat / 16 * 16 + c.toNat % 16 = c.toNat by
          omega, Char.ofNat_toNat]
      · rw [show encodeChar c = [c] by
          simp [encodeChar, h1, h2, h3, h4, h5, h6, h7, h8]]
        rw [List.cons_append, List.nil_append, psa_other h1 h2, ih]
        rfl

theorem stringify_head :
    ∀ (v : JSValue), plain v = true →
    ∃ c cs, stringifyValue v = c :: cs ∧ jsonWsCh c = false ∧ c ≠ ']' ∧ c ≠ '}'
  | .undefined, hp => by simp [plain] at hp
  | .num _, hp => by simp [plain] at hp
  | .null, _ => ⟨'n', _, rfl, by decide, by decide, by decide⟩
  | .bool true, _ => ⟨'t', _, rfl, by decide, by decide, by decide⟩
  | .bool false, _ => ⟨'f', _, rfl, by decide, by decide, by decide⟩
  | .str s, _ => ⟨'"', _, rfl, by decide, by decide, by decide⟩
  | .arr es, _ => ⟨'[', _, rfl, by decide, by decide, by decide⟩
  | .obj fs, _ => ⟨'{', _, rfl, by decide, by decide, by decide⟩

theorem sE_head (e : JSValue) (es : List JSValue) (hp : plain e = true) :
    ∃ c cs, stringifyElems (e :: es) = c :: cs ∧ jsonWsCh c = false ∧
      c ≠ ']' ∧ c ≠ '}' := by
  obtain ⟨c, cs, heq, hws, hne1, hne2⟩ := stringify_head e hp
  cases es with
  | nil => exact ⟨c, cs, by
      rw [show stringifyElems [e] = stringifyValue e from rfl, heq], hws, hne1, hne2⟩
  | cons w ws =>
      exact ⟨c, cs ++ ',' :: stringifyElems (w :: ws),
        by rw [show stringifyElems (e :: w :: ws) =
            stringifyValue e ++ ',' :: stringifyElems (w :: ws) from rfl, heq]; rfl,
        hws, hne1, hne2⟩

theorem match_arr_step {c : Char} (hne : c ≠ ']') (l : JStr) (f : Nat) :
    (match c :: l with
      | ']' :: r => some (JSValue.arr [], r)
      | r => (parseElems f r).map (fun p => (JSValue.arr p.1, p.2))) =
    (parseElems f (c :: l)).map (fun p => (JSValue.arr p.1, p.2)) := by
  split
  · next r heq =>
      injection heq with hc1 hc2
      exact absurd hc1 hne
  · rfl

theorem match_obj_step {c : Char} (hne : c ≠ '}') (l : JStr) (f : Nat) :
    (match c :: l with
      | '}' :: r => some (JSValue.obj [], r)
      | r => (parseFields f r).map (fun p => (JSValue.obj p.1, p.2))) =
    (parseFields f (c :: l)).map (fun p => (JSValue.obj p.1, p.2)) := by
  split
  · next r heq =>
      injection heq with hc1 hc2
      exact absurd hc1 hne
  · rfl

theorem pv_str (g : Nat) (l : JStr) :
    parseValue (g + 1) ('"' :: l) =
      (parseStringAux l).map (fun p => (JSValue.str p.1, p.2)) := rfl

theorem pv_arr (g : Nat) (l : JStr) :
    parseValue (g + 1) ('[' :: l) =
      (match skipJsonWs l with
        | ']' :: r => some (JSValue.arr [], r)
        | r => (parseElems g r).map (fun p => (JSValue.arr p.1, p.2))) := rfl

theorem pv_obj (g : Nat) (l : JStr) :
    parseValue (g + 1) ('{' :: l) =
      (match skipJsonWs l with
        | '}' :: r => some (JSValue.obj [], r)
        | r => (parseFields g r).map (fun p => (JSValue.obj p.1, p.2))) := rfl

theorem pe_succ (g : Nat) (s : JStr) :
    parseElems (g + 1) s = (parseValue g s).bind (fun p =>
      match skipJsonWs p.2 with
      | ',' :: r2 => (parseElems g r2).bind (fun q => some (p.1 :: q.1, q.2))
      | ']' :: r2 => some ([p.1], r2)
      | _ => none) := rfl

theorem pf_succ (g : Nat) (s : JStr) :
    parseFields (g + 1) s =
      (match skipJsonWs s with
      | '"' :: rest => (parseStringAux rest).bind (fun kp =>
          match skipJsonWs kp.2 with
          | ':' :: r2 => (parseValue g r2).bind (fun vp =>
              match skipJsonWs vp.2 with
              | ',' :: r4 => (parseFields g r4).bind (fun q =>
                  some ((kp.1, vp.1) :: q.1, q.2))
              | '}' :: r4 => some ([(kp.1, vp.1)], r4)
              | _ => none)
          | _ => none)
      | _ => none) := rfl

theorem pv_null (g : Nat) (l : JStr) :
    parseValue (g + 1) ('n' :: 'u' :: 'l' :: 'l' :: l) = some (JSValue.null, l) := rfl

theorem pv_true (g : Nat) (l : JStr) :
    parseValue (g + 1) ('t' :: 'r' :: 'u' :: 'e' :: l) = some (JSValue.bool true, l) := rfl

theorem pv_false (g : Nat) (l : JStr) :
    parseValue (g + 1) ('f' :: 'a' :: 'l' :: 's' :: 'e' :: l) =
      some (JSValue.bool false, l) := rfl

theorem pv_arr_nil (g : Nat) (l : JStr) :
    parseValue (g + 1) ('[' :: (']' :: l)) = some (JSValue.arr [], l) := by
  rw [pv_arr, skipJsonWs_cons (c := ']') (by decide)]
  rfl

theorem pv_arr_cons {c : Char} (hws : jsonWsCh c = false) (hne : c ≠ ']')
    (g : Nat) (l : JStr) :
    parseValue (g + 1) ('[' :: (c :: l)) =
      (parseElems g (c :: l)).map (fun p => (JSValue.arr p.1, p.2)) := by
  rw [pv_arr, skipJsonWs_cons hws]
  split
  · next r heq =>
      injection heq with hc1 _
      exact absurd hc1 hne
  · rfl

theorem pv_obj_nil (g : Nat) (l : JStr) :
    parseValue (g + 1) ('{' :: ('}' :: l)) = some (JSValue.obj [], l) := by
  rw [pv_obj, skipJsonWs_cons (c := '}') (by decide)]
  rfl

theorem pv_obj_cons {c : Char} (hws : jsonWsCh c = false) (hne : c ≠ '}')
    (g : Nat) (l : JStr) :
    parseValue (g + 1) ('{' :: (c :: l)) =
      (parseFields g (c :: l)).map (fun p => (JSValue.obj p.1, p.2)) := by
  rw [pv_obj, skipJsonWs_cons hws]
  split
  · next r heq =>
      injection heq with hc1 _
      exact absurd hc1 hne
  · rfl

theorem needV_pos : ∀ v : JSValue, 1 ≤ needV v := by
  intro v; cases v <;> simp [needV]

theorem needE_pos : ∀ es : List JSValue, 1 ≤ needE es := by
  intro es; cases es <;> simp [needE]

theorem needF_pos : ∀ fs : List (JStr × JSValue), 1 ≤ needF fs := by
  intro fs; rcases fs with _ | ⟨⟨k, v⟩, fs⟩ <;> simp [needF]

mutual
theorem parse_print : ∀ (v : JSValue), plain v = true → ∀ (f : Nat) (rest : JStr),
    needV v ≤ f → parseValue f (stringifyValue v ++ rest) = some (v, rest)
  | .undefined, hp, _, _, _ => by simp [plain] at hp
  | .num _, hp, _, _, _ => by simp [plain] at hp
  | .null, _, f, rest, hf => by
      obtain ⟨g, rfl⟩ : ∃ g, f = g + 1 := ⟨f - 1, by have := needV_pos .null; omega⟩
      rw [show stringifyValue .null ++ rest = 'n' :: 'u' :: 'l' :: 'l' :: rest from rfl,
        pv_null]
  | .bool true, _, f, rest, hf => by
      obtain ⟨g, rfl⟩ : ∃ g, f = g + 1 := ⟨f - 1, by have := needV_pos (.bool true); omega⟩
      rw [show stringifyValue (.bool true) ++ rest = 't' :: 'r' :: 'u' :: 'e' :: rest
        from rfl, pv_true]
  | .bool false, _, f, rest, hf => by
      obtain ⟨g, rfl⟩ : ∃ g, f = g + 1 := ⟨f - 1, by have := needV_pos (.bool false); omega⟩
      rw [show stringifyValue (.bool false) ++ rest = 'f' :: 'a' :: 'l' :: 's' :: 'e' :: rest
        from rfl, pv_false]
  | .str s, _, f, rest, hf => by
      obtain ⟨g, rfl⟩ : ∃ g, f = g + 1 := ⟨f - 1, by have := needV_pos (.str s); omega⟩
      rw [show stringifyValue (.str s) ++ rest = '"' :: (escapeStr s ++ '"' :: rest) by
          simp [stringifyValue, List.cons_append, List.append_assoc]]
      rw [pv_str, parseStringAux_escape]
      rfl
  | .arr [], _, f, rest, hf => by
      obtain ⟨g, rfl⟩ : ∃ g, f = g + 1 := ⟨f - 1, by have := needV_pos (.arr []); omega⟩
      rw [show stringifyValue (.arr []) ++ rest = '[' :: (']' :: rest) from rfl,
        pv_arr_nil]
  | .arr (e :: es), hp, f, rest, hf => by
      obtain ⟨g, rfl⟩ : ∃ g, f = g + 1 :=
        ⟨f - 1, by have := needV_pos (.arr (e :: es)); omega⟩
      have hpe : plain e = true ∧ plainList es = true := by
        simpa [plain, plainList] using hp
      rw [show stringifyValue (.arr (e :: es)) ++ rest =
        '[' :: (stringifyElems (e :: es) ++ ']' :: rest) by
          simp [stringifyValue, List.cons_append, List.append_assoc]]
      obtain ⟨c, cs, hcons, hws, hne1, _⟩ := sE_head e es hpe.1
      rw [hcons, List.cons_append, pv_arr_cons hws hne1,
        ← List.cons_append, ← hcons]
      rw [parse_print_elems (e :: es) (by simp [plainList, hpe.1, hpe.2])
        (by simp) g rest (by simp only [needV] at hf; omega)]
      rfl
  | .obj [], _, f, rest, hf => by
      obtain ⟨g, rfl⟩ : ∃ g, f = g + 1 := ⟨f - 1, by have := needV_pos (.obj []); omega⟩
      rw [show stringifyValue (.obj []) ++ rest = '{' :: ('}' :: rest) from rfl,
        pv_obj_nil]
  | .obj (kv :: fs), hp, f, rest, hf => by
      obtain ⟨g, rfl⟩ : ∃ g, f = g + 1 :=
        ⟨f - 1, by have := needV_pos (.obj (kv :: fs)); omega⟩
      have hpf : plainFields (kv :: fs) = true := by simpa [plain] using hp
      rw [show stringifyValue (.obj (kv :: fs)) ++ rest =
        '{' :: (stringifyMembers (kv :: fs) ++ '}' :: rest) by
          simp [stringifyValue, List.cons_append, List.append_assoc]]
      obtain ⟨k, v⟩ := kv
      obtain ⟨cs, hcons⟩ : ∃ cs, stringifyMembers ((k, v) :: fs) = '"' :: cs := by
        cases fs <;> exact ⟨_, rfl⟩
      rw [hcons, List.cons_append, pv_obj_cons (by decide) (by decide),
        ← List.cons_append, ← hcons]
      rw [parse_print_fields ((k, v) :: fs) hpf (by simp) g rest
        (by simp only [needV] at hf; omega)]
      rfl

theorem parse_print_elems : ∀ (es : List JSValue), plainList es = true → es ≠ [] →
    ∀ (f : Nat) (rest : JStr), needE es ≤ f →
    parseElems f (stringifyElems es ++ ']' :: rest) = some (es, rest)
  | [], _, hne, _, _, _ => absurd rfl hne
  | [v], hp, _, f, rest, hf => by
      obtain ⟨g, rfl⟩ : ∃ g, f = g + 1 := ⟨f - 1, by have := needE_pos [v]; omega⟩
      rw [show stringifyElems [v] = stringifyValue v from rfl, pe_succ]
      rw [parse_print v (by simpa [plainList] using hp) g (']' :: rest)
        (by simp only [needE] at hf; omega)]
      simp [skipJsonWs_cons (c := ']') (by decide)]
  | v :: w :: ws, hp, _, f, rest, hf => by
      obtain ⟨g, rfl⟩ : ∃ g, f = g + 1 :=
        ⟨f - 1, by have := needE_pos (v :: w :: ws); omega⟩
      have hp1 : plain v = true ∧ plainList (w :: ws) = true := by
        simpa [plainList] using hp
      rw [show stringifyElems (v :: w :: ws) ++ ']' :: rest =
        stringifyValue v ++ ',' :: (stringifyElems (w :: ws) ++ ']' :: rest) by
          simp [stringifyElems, List.cons_append, List.append_assoc]]
      rw [pe_succ]
      have hfe : 1 + max (needV v) (needE (w :: ws)) ≤ g + 1 := by
        rw [show needE (v :: w :: ws) = 1 + max (needV v) (needE (w :: ws))
          from rfl] at hf
        exact hf
      rw [parse_print v hp1.1 g (',' :: (stringifyElems (w :: ws) ++ ']' :: rest))
        (by omega)]
      have hrec := parse_print_elems (w :: ws) hp1.2 (by simp) g rest (by omega)
      simp [skipJsonWs_cons (c := ',') (by decide), hrec]

theorem parse_print_fields : ∀ (fs : List (JStr × JSValue)), plainFields fs = true →
    fs ≠ [] → ∀ (f : Nat) (rest : JStr), needF fs ≤ f →
    parseFields f (stringifyMembers fs ++ '}' :: rest) = some (fs, rest)
  | [], _, hne, _, _, _ => absurd rfl hne
  | [(k, v)], hp, _, f, rest, hf => by
      obtain ⟨g, rfl⟩ : ∃ g, f = g + 1 := ⟨f - 1, by have := needF_pos [(k, v)]; omega⟩
      rw [show stringifyMembers [(k, v)] ++ '}' :: rest =
        '"' :: (escapeStr k ++ '"' :: (':' :: (stringifyValue v ++ '}' :: rest))) by
          simp [stringifyMembers, List.cons_append, List.append_assoc]]
      rw [pf_succ, skipJsonWs_cons (c := '"') (by decide)]
      have hv := parse_print v (by simpa [plainFields] using hp) g ('}' :: rest)
        (by simp only [needF] at hf; omega)
      simp [parseStringAux_escape, skipJsonWs_cons (c := ':') (by decide), hv,
        skipJsonWs_cons (c := '}') (by decide)]
  | (k, v) :: kv2 :: fs, hp, _, f, rest, hf => by
      obtain ⟨g, rfl⟩ : ∃ g, f = g + 1 :=
        ⟨f - 1, by have := needF_pos ((k, v) :: kv2 :: fs); omega⟩
      have hp1 : plain v = true ∧ plainFields (kv2 :: fs) = true := by
        simpa [plainFields] using hp
      rw [show stringifyMembers ((k, v) :: kv2 :: fs) ++ '}' :: rest =
        '"' :: (escapeStr k ++ '"' :: (':' ::
          (stringifyValue v ++ ',' :: (stringifyMembers (kv2 :: fs) ++ '}' :: rest)))) by
          simp [stringifyMembers, List.cons_append, List.append_assoc]]
      rw [pf_succ, skipJsonWs_cons (c := '"') (by decide)]
      have hff : 1 + max (needV v) (needF (kv2 :: fs)) ≤ g + 1 := by
        rw [show needF ((k, v) :: kv2 :: fs) = 1 + max (needV v) (needF (kv2 :: fs))
          from rfl] at hf
        exact hf
      have hv := parse_print v hp1.1 g
        (',' :: (stringifyMembers (kv2 :: fs) ++ '}' :: rest)) (by omega)
      have hrec := parse_print_fields (kv2 :: fs) hp1.2 (by simp) g rest (by omega)
      simp [parseStringAux_escape, skipJsonWs_cons (c := ':') (by decide), hv,
        skipJsonWs_cons (c := ',') (by decide), hrec]
end

theorem natDigits_length_pos (n : Nat) : 1 ≤ (natDigits n).length := by
  unfold natDigits
  split <;> simp

theorem stringify_length_pos : ∀ v : JSValue, 1 ≤ (stringifyValue v).length := by
  intro v
  cases v with
  | num n =>
      show 1 ≤ (intDigits n).length
      unfold intDigits
      split
      · simp
      · exact natDigits_length_pos _
  | bool b => cases b <;> simp [stringifyValue, jstr]
  | arr es => simp [stringifyValue]
  | obj fs => simp [stringifyValue]
  | str s => simp [stringifyValue]
  | undefined => simp [stringifyValue, jstr]
  | null => simp [stringifyValue, jstr]

mutual
theorem needV_le : ∀ v : JSValue, needV v ≤ (stringifyValue v).length
  | .undefined => by simp [needV, stringifyValue, jstr]
  | .null => by simp [needV, stringifyValue, jstr]
  | .bool true => by simp [needV, stringifyValue, jstr]
  | .bool false => by simp [needV, stringifyValue, jstr]
  | .num n => by
      have := natDigits_length_pos n.toNat
      have := natDigits_length_pos (-n).toNat
      show needV (.num n) ≤ (intDigits n).length
      unfold intDigits
      split <;> (simp [needV]; try omega)
  | .str s => by simp [needV, stringifyValue]
  | .arr es => by
      have h := needE_le es
      show 1 + needE es ≤ ('[' :: (stringifyElems es ++ [']'])).length
      simp only [List.length_cons, List.length_append, List.length_singleton]
      omega
  | .obj fs => by
      have h := needF_le fs
      show 1 + needF fs ≤ ('{' :: (stringifyMembers fs ++ ['}'])).length
      simp only [List.length_cons, List.length_append, List.length_singleton]
      omega

theorem needE_le : ∀ es : List JSValue, needE es ≤ (stringifyElems es).length + 1
  | [] => by simp [needE, stringifyElems]
  | [v] => by
      have h1 := needV_le v
      have h2 := stringify_length_pos v
      show 1 + max (needV v) (needE []) ≤ (stringifyValue v).length + 1
      simp only [needE]
      omega
  | v :: w :: ws => by
      have h1 := needV_le v
      have h2 := needE_le (w :: ws)
      show 1 + max (needV v) (needE (w :: ws)) ≤
        (stringifyValue v ++ ',' :: stringifyElems (w :: ws)).length + 1
      simp only [List.length_append, List.length_cons]
      omega

theorem needF_le : ∀ fs : List (JStr × JSValue),
    needF fs ≤ (stringifyMembers fs).length + 1
  | [] => by simp [needF, stringifyMembers]
  | [(k, v)] => by
      have h1 := needV_le v
      have h2 := stringify_length_pos v
      show 1 + max (needV v) (needF []) ≤
        ('"' :: (escapeStr k ++ '"' :: ':' :: stringifyValue v)).length + 1
      simp only [needF, List.length_cons, List.length_append]
      omega
  | (k, v) :: kv2 :: fs => by
      have h1 := needV_le v
      have h2 := needF_le (kv2 :: fs)
      show 1 + max (needV v) (needF (kv2 :: fs)) ≤
        (('"' :: (escapeStr k ++ '"' :: ':' :: stringifyValue v)) ++
          ',' :: stringifyMembers (kv2 :: fs)).length + 1
      simp only [List.length_append, List.length_cons]
      omega
end

/-- `JSON.parse` recovers exactly what `JSON.stringify` wrote, for every
value in the stored fragment. -/
theorem jsonParse_stringify {v : JSValue} (hp : plain v = true) :
    jsonParse (stringifyValue v) = some v := by
  unfold jsonParse
  have h := parse_print v hp ((stringifyValue v).length + 1) []
    (by have := needV_le v; omega)
  rw [List.append_nil] at h
  rw [h]
  simp [skipJsonWs]

theorem plain_encodeSource (s : GroundingSource) : plain (encodeSource s) = true := by
  simp [encodeSource, plain, plainFields]

theorem plainList_map_encodeSource : ∀ l : List GroundingSource,
    plainList (l.map encodeSource) = true
  | [] => rfl
  | s :: l => by
      simp only [List.map_cons, plainList, plain_encodeSource,
        plainList_map_encodeSource l, Bool.and_self]

theorem plain_encodeMessage (m : ChatMessage) : plain (encodeMessage m) = true := by
  rcases m with ⟨role, text, _ | srcs⟩
  · simp [encodeMessage, plain, plainFields]
  · simp [encodeMessage, plain, plainFields, plainList_map_encodeSource]

theorem plainList_map_encodeMessage : ∀ ms : List ChatMessage,
    plainList (ms.map encodeMessage) = true
  | [] => rfl
  | m :: ms => by
      simp only [List.map_cons, plainList, plain_encodeMessage,
        plainList_map_encodeMessage ms, Bool.and_self]

theorem appendAll_fst : ∀ (ms : List JSValue) (st : List JSValue × BrowserStore),
    (appendAll ms st).1 = st.1 ++ ms
  | [], st => by simp [appendAll]
  | m :: ms, st => by
      rw [show appendAll (m :: ms) st = appendAll ms (appendAndSave m st) from rfl,
        appendAll_fst ms]
      simp [appendAndSave]

theorem appendAll_snd : ∀ (ms : List JSValue) (msgs0 : List JSValue)
    (store : BrowserStore), ms ≠ [] →
    (appendAll ms (msgs0, store)).2 =
      { store with
        chatHistoryStore := some (stringifyValue (JSValue.arr (msgs0 ++ ms))) }
  | [], _, _, hne => absurd rfl hne
  | [m], msgs0, store, _ => by
      simp [appendAll, appendAndSave, saveMessages]
  | m :: m2 :: ms, msgs0, store, _ => by
      rw [show appendAll (m :: m2 :: ms) (msgs0, store) =
        appendAll (m2 :: ms) (appendAndSave m (msgs0, store)) from rfl]
      rw [show appendAndSave m (msgs0, store) =
        (msgs0 ++ [m], saveMessages (msgs0 ++ [m]) store) from rfl]
      rw [appendAll_snd (m2 :: ms) (msgs0 ++ [m]) _ (by simp)]
      simp [saveMessages]

/-- C6: appending any sequence of chat messages one by one (with the save
effect after each), then rehydrating the history in a new session, yields
exactly the prior history plus the appended messages, in order; and each
rehydrated message object carries the original role, text and sources. -/
theorem c6_chat_history_roundtrip (init appended : List ChatMessage)
    (store : BrowserStore) (hne : appended ≠ []) :
    (appendAll (appended.map encodeMessage) (init.map encodeMessage, store)).1 =
        (init ++ appended).map encodeMessage ∧
    loadMessages
        (appendAll (appended.map encodeMessage) (init.map encodeMessage, store)).2 =
      (init ++ appended).map encodeMessage ∧
    (∀ m : ChatMessage,
      getPropNN (encodeMessage m) (jstr "role") = .str (roleStr m.role) ∧
      getPropNN (encodeMessage m) (jstr "text") = .str m.text ∧
      getPropNN (encodeMessage m) (jstr "sources") =
        (match m.sources with
         | none => .undefined
         | some l => .arr (l.map encodeSource))) := by
  refine ⟨?_, ?_, ?_⟩
  · rw [appendAll_fst]
    simp
  · rw [appendAll_snd _ _ _ (by simpa using hne)]
    rw [show ((init.map encodeMessage) ++ (appended.map encodeMessage)) =
      (init ++ appended).map encodeMessage by simp]
    simp only [loadMessages]
    rw [jsonParse_stringify
      (show plain (JSValue.arr ((init ++ appended).map encodeMessage)) = true
        from plainList_map_encodeMessage (init ++ appended))]
  · intro m
    rcases m with ⟨role, text, _ | srcs⟩ <;>
      refine ⟨?_, ?_, ?_⟩ <;>
      simp [encodeMessage, getPropNN, lookupField, jstr]

/-- C6 witness: a greeting plus two appended messages (one with escapes in
its text, one carrying a citation) round-trip through local storage. -/
theorem c6_chat_history_roundtrip_witness :
    (appendAll
        ([{ role := .user, text := jstr "What about \"bonds\"?\nThanks" },
          { role := .model, text := jstr "Bonds add stability.",
            sources := some [⟨jstr "Bonds 101", jstr "https://example.com/bonds"⟩] }].map
          encodeMessage)
        ([defaultGreeting].map encodeMessage, {})).1 =
      ([defaultGreeting,
        { role := .user, text := jstr "What about \"bonds\"?\nThanks" },
        { role := .model, text := jstr "Bonds add stability.",
          sources := some [⟨jstr "Bonds 101", jstr "https://example.com/bonds"⟩] }].map
        encodeMessage) ∧
    loadMessages
        (appendAll
          ([{ role := .user, text := jstr "What about \"bonds\"?\nThanks" },
            { role := .model, text := jstr "Bonds add stability.",
              sources := some [⟨jstr "Bonds 101", jstr "https://example.com/bonds"⟩]
            }].map encodeMessage)
          ([defaultGreeting].map encodeMessage, {})).2 =
      ([defaultGreeting,
        { role := .user, text := jstr "What about \"bonds\"?\nThanks" },
        { role := .model, text := jstr "Bonds add stability.",
          sources := some [⟨jstr "Bonds 101", jstr "https://example.com/bonds"⟩] }].map
        encodeMessage) := by
  have h := c6_chat_history_roundtrip [defaultGreeting]
    [{ role := .user, text := jstr "What about \"bonds\"?\nThanks" },
     { role := .model, text := jstr "Bonds add stability.",
       sources := some [⟨jstr "Bonds 101", jstr "https://example.com/bonds"⟩] }]
    {} (by decide)
  exact ⟨h.1, h.2.1⟩

/-! ## The fence scenario (C9) -/

theorem isPrefixList_iff : ∀ (p s : JStr), isPrefixList p s = true ↔ p <+: s
  | [], s => by simp [isPrefixList]
  | c :: p, [] => by simp [isPrefixList]
  | c :: p, d :: s => by
      rw [show isPrefixList (c :: p) (d :: s) =
        (decide (c = d) && isPrefixList p s) from rfl]
      simp [isPrefixList_iff p s, List.cons_prefix_cons]

theorem firstOccur_cons (pat : JStr) (c : Char) (rest : JStr) :
    firstOccur pat (c :: rest) =
      if isPrefixList pat (c :: rest) then some 0
      else (firstOccur pat rest).map (· + 1) := rfl

theorem hasSub_cons_false {pat : JStr} {c : Char} {rest : JStr}
    (h : hasSub pat (c :: rest) = false) :
    isPrefixList pat (c :: rest) = false ∧ hasSub pat rest = false := by
  simp only [hasSub, firstOccur_cons] at h ⊢
  by_cases hp : isPrefixList pat (c :: rest) = true
  · rw [hp] at h; simp at h
  · rw [if_neg hp] at h
    refine ⟨by simpa using hp, ?_⟩
    rcases hfo : firstOccur pat rest with _ | n
    · simp [hfo]
    · rw [hfo] at h
      simp at h

theorem firstOccur_append (pat F : JStr) (hne : pat ≠ [])
    (hF : isPrefixList pat F = true)
    (hjunc : ∀ m, 0 < m → m < pat.length →
      isPrefixList pat (pat.take m ++ F) = false) :
    ∀ xs : JStr, hasSub pat xs = false →
      firstOccur pat (xs ++ F) = some xs.length
  | [], _ => by
      simp only [List.nil_append, List.length_nil]
      cases F with
      | nil =>
          rcases pat with _ | ⟨c, p⟩
          · exact absurd rfl hne
          · rw [show isPrefixList (c :: p) [] = false from rfl] at hF
            cases hF
      | cons c rest => rw [firstOccur_cons, if_pos hF]
  | c :: xs, h => by
      obtain ⟨h1, h2⟩ := hasSub_cons_false h
      rw [List.cons_append, firstOccur_cons, if_neg ?npre]
      · rw [firstOccur_append pat F hne hF hjunc xs h2]
        simp
      case npre =>
        intro hcontra
        have hpre : pat <+: (c :: xs) ++ F :=
          (isPrefixList_iff _ _).mp (by simpa using hcontra)
        have htake : pat = ((c :: xs) ++ F).take pat.length :=
          List.prefix_iff_eq_take.mp hpre
        by_cases hlen : pat.length ≤ (c :: xs).length
        · rw [List.take_append_of_le_length hlen] at htake
          have : pat <+: c :: xs := htake ▸ List.take_prefix _ _
          rw [(isPrefixList_iff pat (c :: xs)).mpr this] at h1
          cases h1
        · have hm : (c :: xs).length < pat.length := by omega
          have hxs : c :: xs = pat.take (c :: xs).length := by
            have h := congrArg (List.take (c :: xs).length) htake
            rw [List.take_take, min_eq_left (by omega),
              List.take_append_of_le_length (le_refl _), List.take_length] at h
            exact h.symm
          have hj := hjunc (c :: xs).length (by simp) hm
          rw [← hxs, List.cons_append] at hj
          rw [hj] at hcontra
          cases hcontra

/-- The opening token of the fence regex. -/
def fencePat : JStr := jstr "```json"

/-- The inside of the fixed fenced block of the C9 scenario. -/
def c9Inner : JStr :=
  jstr "\n\x7b\"allocations\":[\x7b\"ticker\":\"VTI\",\"percentage\":60\x7d]\x7d\n"

/-- The fixed fenced block of the C9 scenario. -/
def c9Fence : JStr := fencePat ++ c9Inner ++ jstr "```"

/-- The parsed payload of the C9 block. -/
def c9Payload : JSValue :=
  .obj [(jstr "allocations",
    .arr [.obj [(jstr "ticker", .str (jstr "VTI")),
                (jstr "percentage", .num 60)]])]

/-- The single sanitized allocation of the C9 scenario: ticker and
percentage from the payload, every other field back-filled. -/
def c9Alloc : AllocationItem :=
  { ticker := .str (jstr "VTI"), name := .str (jstr "N/A"),
    sector := .str (jstr "N/A"), percentage := .num 60,
    type := .str (jstr "ETF"),
    rationale := .str (jstr "No rationale provided."),
    accountType := .str (jstr "Brokerage"), dividendYield := .undefined,
    technicalAnalysis := taPlaceholder, marketSentiment := msPlaceholder }

theorem c9_firstOccur (narrative : JStr)
    (h1 : hasSub fencePat narrative = false) :
    firstOccur fencePat (narrative ++ c9Fence) = some narrative.length :=
  firstOccur_append fencePat c9Fence (by decide) (by decide)
    (by intro m hm1 hm2
        rw [show fencePat.length = 7 from rfl] at hm2
        interval_cases m <;> decide)
    narrative h1

theorem c9_fenceMatch (narrative : JStr)
    (h1 : hasSub fencePat narrative = false) :
    fenceMatch (narrative ++ c9Fence) = some c9Inner := by
  unfold fenceMatch
  rw [show jstr "```json" = fencePat from rfl, c9_firstOccur narrative h1]
  have hdrop : (narrative ++ c9Fence).drop (narrative.length + 7) =
      c9Inner ++ jstr "```" := by
    rw [List.drop_append]
    rfl
  simp only [hdrop]
  decide

/-- Sanitizing the C9 payload leaves one allocation with the payload's
ticker and percentage and every other field back-filled; the summary is the
`||`-defaulted summary argument. -/
theorem c9_sanitize_payload : ∀ S : JStr, validateAndSanitizePlan c9Payload S =
    some { defaultPlan with
      summary := jsOr (.str S) (.str (jstr "No summary provided.")),
      allocations := [c9Alloc] } := fun _ => rfl

/-- C9: for every narrative (not itself containing a fence opener, and not
trimming to empty) followed by the fenced block whose allocations list is
`[{"ticker":"VTI","percentage":60}]`, the returned plan's summary is the
trimmed narrative preceding the fence, and its allocation list is exactly
one entry with ticker "VTI", percentage 60, and every other allocation
field at its declared default. -/
theorem c9_narrative_fence_scenario (narrative : JStr)
    (h1 : hasSub fencePat narrative = false)
    (h2 : jsTrim narrative ≠ []) :
    processResponse (narrative ++ c9Fence) JSValue.undefined =
      Except.ok { defaultPlan with
        summary := JSValue.str (jsTrim narrative),
        allocations := [c9Alloc] } := by
  have hB : jsIndexOf (narrative ++ c9Fence) (jstr "```json") =
      (narrative.length : Int) := by
    unfold jsIndexOf
    rw [show jstr "```json" = fencePat from rfl, c9_firstOccur narrative h1]
  have hC : jsSubstringTo (narrative ++ c9Fence) ((narrative.length : Nat) : Int) =
      narrative := by
    unfold jsSubstringTo
    rw [Int.toNat_natCast, List.take_left]
  have hH : jsOr (.str (jsTrim narrative)) (.str (jstr "No summary provided.")) =
      .str (jsTrim narrative) := by
    simp [jsOr, truthy, h2]
  unfold processResponse
  rw [if_neg (by
    simp only [truthy, Bool.not_eq_true', Bool.not_eq_false]
    cases narrative <;> simp [c9Fence, fencePat, jstr])]
  simp only [hB, hC, c9_fenceMatch narrative h1,
    show c9Inner.isEmpty = false from rfl, Bool.false_eq_true, if_false,
    show jsonParse (jsTrim c9Inner) = some c9Payload from rfl,
    show collectSources JSValue.undefined = some [] from rfl,
    c9_sanitize_payload (jsTrim narrative), hH]
  rfl

/-- C9 witness: a concrete narrative followed by the fixed block. -/
theorem c9_narrative_fence_scenario_witness :
    processResponse (jstr "Your plan, explained. " ++ c9Fence) JSValue.undefined =
      Except.ok { defaultPlan with
        summary := JSValue.str (jsTrim (jstr "Your plan, explained. ")),
        allocations := [c9Alloc] } ∧
    jsTrim (jstr "Your plan, explained. ") = jstr "Your plan, explained." :=
  ⟨c9_narrative_fence_scenario (jstr "Your plan, explained. ")
    (by decide) (by decide), rfl⟩
